import Mathlib

/-!
Shallow embedding of `src/Statistic.h` (`stat::Statistic<T, C, _useStdDev>`),
a single-pass online statistics accumulator.

Modelling choices:

* the sample type `T` (a floating point type) is modelled in exact
  arithmetic: a value is `Option ℚ`, where `some q` is the finite value `q`
  and `none` is the IEEE quiet NaN.  Arithmetic propagates NaN, and the
  comparisons `<`, `>`, `<=` are false whenever an operand is NaN, exactly
  as the IEEE comparisons the C++ operators perform on a quiet NaN.
  Rounding and infinities are idealised away: arithmetic on finite values
  is exact.
* the counter type `C` (an unsigned integer type, assumed wide enough for
  the sample count, as the design requires of callers) is modelled as `ℕ`.
* the compile-time template flag `_useStdDev`, which selects between the
  `StdDev` and `Empty` helper structs for the `_extra` member, is modelled
  as a `Bool` field that is fixed at construction and never mutated; the
  accessor pair `ssqdifGet` / `ssqdifSet` mirrors `_extra.ssqdif()` of the
  two helper structs (`Empty.ssqdif()` returns NaN and its setter is a
  no-op; `StdDev.ssqdif()` reads and writes the `_ssqdif` field).
* `std::sqrt` returns NaN on a NaN or negative argument, hence `fpSqrt`.
-/

namespace stat

/-- A floating point value: `some q` is the finite value `q`, `none` is the
IEEE quiet NaN. -/
abbrev FP : Type := Option ℚ

/-- IEEE addition on the model: NaN propagates. -/
def fpAdd : FP → FP → FP
  | some a, some b => some (a + b)
  | _, _ => none

/-- IEEE subtraction on the model: NaN propagates. -/
def fpSub : FP → FP → FP
  | some a, some b => some (a - b)
  | _, _ => none

/-- IEEE multiplication on the model: NaN propagates. -/
def fpMul : FP → FP → FP
  | some a, some b => some (a * b)
  | _, _ => none

/-- Multiplication by a converted counter value (`_cnt * x` in the C++,
where `_cnt` is implicitly converted to the value type). -/
def fpMulNat (n : ℕ) : FP → FP
  | some a => some ((n : ℚ) * a)
  | none => none

/-- Division by a converted counter value (`x / _cnt` in the C++).  Every
use in the source is guarded by a positive counter. -/
def fpDivNat : FP → ℕ → FP
  | some a, n => some (a / (n : ℚ))
  | none, _ => none

/-- IEEE strict less-than: false whenever an operand is NaN. -/
def fpLt : FP → FP → Bool
  | some a, some b => decide (a < b)
  | _, _ => false

/-- IEEE strict greater-than: false whenever an operand is NaN. -/
def fpGt : FP → FP → Bool
  | some a, some b => decide (b < a)
  | _, _ => false

/-- IEEE less-or-equal: false whenever an operand is NaN. -/
def fpLe : FP → FP → Bool
  | some a, some b => decide (a ≤ b)
  | _, _ => false

/-- The state of `stat::Statistic<T, C, _useStdDev>`.  The field
`_useStdDev` records the template flag; `_extra` holds the `_ssqdif`
member of the `StdDev` helper struct (it is immaterial when
`_useStdDev = false`, matching the stateless `Empty` struct). -/
structure Statistic where
  _useStdDev : Bool
  _cnt : ℕ
  _sum : FP
  _min : FP
  _max : FP
  _extra : FP
  deriving DecidableEq

namespace Statistic

/-- The value `_extra.ssqdif()`: the `Empty` struct returns NaN, the
`StdDev` struct returns its `_ssqdif` field. -/
def ssqdifGet (s : Statistic) : FP :=
  if s._useStdDev then s._extra else none

/-- The call `_extra.ssqdif(v)`: a no-op for `Empty`, a field write for
`StdDev`. -/
def ssqdifSet (s : Statistic) (v : FP) : Statistic :=
  if s._useStdDev then { s with _extra := v } else s

/-- A default-constructed `Statistic` (all members take their default
initialisers: counter 0, sums 0.0, and `StdDev._ssqdif` 0.0). -/
def init (b : Bool) : Statistic :=
  { _useStdDev := b, _cnt := 0, _sum := some 0, _min := some 0,
    _max := some 0, _extra := some 0 }

/-- `Statistic::clear()`: zero the four scalar fields and call
`_extra.clear()` (which zeroes `_ssqdif` for `StdDev` and does nothing
for `Empty`). -/
def clear (s : Statistic) : Statistic :=
  { s with _cnt := 0, _sum := some 0, _min := some 0, _max := some 0,
           _extra := if s._useStdDev then some 0 else s._extra }

/-- The min/max update at the top of `Statistic::add`: first sample sets
both, otherwise a strictly smaller value updates `_min`, else a strictly
larger value updates `_max`. -/
def updateMinMax (s : Statistic) (value : FP) : Statistic :=
  if s._cnt = 0 then { s with _min := value, _max := value }
  else if fpLt value s._min then { s with _min := value }
  else if fpGt value s._max then { s with _max := value }
  else s

/-- The conditional sum-of-squared-differences update in `Statistic::add`:
when the flag is on and `_cnt > 1` (after the increment),
`_store = _sum / _cnt - value` and
`_extra.ssqdif(_extra.ssqdif() + _cnt * _store * _store / (_cnt - 1))`;
`_cnt - 1` is unsigned arithmetic, hence `ℕ` subtraction. -/
def updateSsq (s : Statistic) (value : FP) : Statistic :=
  if s._useStdDev ∧ 1 < s._cnt then
    let store := fpSub (fpDivNat s._sum s._cnt) value
    ssqdifSet s
      (fpAdd (ssqdifGet s)
        (fpDivNat (fpMul (fpMulNat s._cnt store) store) (s._cnt - 1)))
  else s

/-- `Statistic::add(value)`: update min/max, fold the value into `_sum`,
increment `_cnt`, conditionally update the sum of squared differences, and
return (the new state and) `_sum - previousSum`. -/
def add (s : Statistic) (value : FP) : Statistic × FP :=
  let s1 := updateMinMax s value
  let s2 := { s1 with _sum := fpAdd s1._sum value, _cnt := s1._cnt + 1 }
  let s3 := updateSsq s2 value
  (s3, fpSub s3._sum s._sum)

/-- The state after `Statistic::add(value)` (discarding the return value). -/
def addS (s : Statistic) (value : FP) : Statistic :=
  (add s value).1

/-- The state after adding a list of samples in order. -/
def addList (s : Statistic) (l : List FP) : Statistic :=
  l.foldl addS s

/-- `Statistic::count()`. -/
def count (s : Statistic) : ℕ := s._cnt

/-- `Statistic::sum()`. -/
def sum (s : Statistic) : FP := s._sum

/-- `Statistic::minimum()`. -/
def minimum (s : Statistic) : FP := s._min

/-- `Statistic::maximum()`. -/
def maximum (s : Statistic) : FP := s._max

/-- `Statistic::average()`: NaN when `_cnt == 0`, else `_sum / _cnt`. -/
def average (s : Statistic) : FP :=
  if s._cnt = 0 then none else fpDivNat s._sum s._cnt

/-- `Statistic::variance()`: NaN when the flag is off or `_cnt == 0`, else
`_extra.ssqdif() / _cnt`. -/
def variance (s : Statistic) : FP :=
  if s._useStdDev = false then none
  else if s._cnt = 0 then none
  else fpDivNat (ssqdifGet s) s._cnt

/-- `std::sqrt` on the model: NaN on NaN and on a negative argument, the
real square root otherwise. -/
noncomputable def fpSqrt : FP → Option ℝ
  | none => none
  | some q => if q < 0 then none else some (Real.sqrt (q : ℝ))

/-- `Statistic::pop_stdev()`: NaN when the flag is off or `_cnt == 0`, else
`sqrt(_extra.ssqdif() / _cnt)`. -/
noncomputable def pop_stdev (s : Statistic) : Option ℝ :=
  if s._useStdDev = false then none
  else if s._cnt = 0 then none
  else fpSqrt (fpDivNat (ssqdifGet s) s._cnt)

/-- `Statistic::unbiased_stdev()`: NaN when the flag is off or `_cnt < 2`,
else `sqrt(_extra.ssqdif() / (_cnt - 1))` (unsigned subtraction). -/
noncomputable def unbiased_stdev (s : Statistic) : Option ℝ :=
  if s._useStdDev = false then none
  else if s._cnt < 2 then none
  else fpSqrt (fpDivNat (ssqdifGet s) (s._cnt - 1))

end Statistic

/-- The accumulator states reachable through the public interface:
default construction, `add` with an arbitrary value (NaN included), and
`clear`.  (The deprecated constructor and `clear(bool)` forward to these.) -/
inductive Reachable : Statistic → Prop
  | init (b : Bool) : Reachable (Statistic.init b)
  | add (v : FP) {s : Statistic} : Reachable s → Reachable (Statistic.addS s v)
  | clear {s : Statistic} : Reachable s → Reachable (Statistic.clear s)

/-- The accumulator states reachable when every added sample is a finite
(non-NaN) value. -/
inductive ReachableFin : Statistic → Prop
  | init (b : Bool) : ReachableFin (Statistic.init b)
  | add (q : ℚ) {s : Statistic} :
      ReachableFin s → ReachableFin (Statistic.addS s (some q))
  | clear {s : Statistic} : ReachableFin s → ReachableFin (Statistic.clear s)

namespace Statistic

theorem updateMinMax_useStdDev (s : Statistic) (v : FP) :
    (updateMinMax s v)._useStdDev = s._useStdDev := by
  unfold updateMinMax; split
  · rfl
  · split
    · rfl
    · split <;> rfl

theorem updateMinMax_cnt (s : Statistic) (v : FP) :
    (updateMinMax s v)._cnt = s._cnt := by
  unfold updateMinMax; split
  · rfl
  · split
    · rfl
    · split <;> rfl

theorem updateMinMax_sum (s : Statistic) (v : FP) :
    (updateMinMax s v)._sum = s._sum := by
  unfold updateMinMax; split
  · rfl
  · split
    · rfl
    · split <;> rfl

theorem updateMinMax_extra (s : Statistic) (v : FP) :
    (updateMinMax s v)._extra = s._extra := by
  unfold updateMinMax; split
  · rfl
  · split
    · rfl
    · split <;> rfl

theorem updateSsq_useStdDev (s : Statistic) (v : FP) :
    (updateSsq s v)._useStdDev = s._useStdDev := by
  unfold updateSsq ssqdifSet; split
  · split <;> rfl
  · rfl

theorem updateSsq_cnt (s : Statistic) (v : FP) :
    (updateSsq s v)._cnt = s._cnt := by
  unfold updateSsq ssqdifSet; split
  · split <;> rfl
  · rfl

theorem updateSsq_sum (s : Statistic) (v : FP) :
    (updateSsq s v)._sum = s._sum := by
  unfold updateSsq ssqdifSet; split
  · split <;> rfl
  · rfl

theorem updateSsq_min (s : Statistic) (v : FP) :
    (updateSsq s v)._min = s._min := by
  unfold updateSsq ssqdifSet; split
  · split <;> rfl
  · rfl

theorem updateSsq_max (s : Statistic) (v : FP) :
    (updateSsq s v)._max = s._max := by
  unfold updateSsq ssqdifSet; split
  · split <;> rfl
  · rfl

theorem addS_useStdDev (s : Statistic) (v : FP) :
    (addS s v)._useStdDev = s._useStdDev := by
  unfold addS add
  rw [updateSsq_useStdDev]
  exact updateMinMax_useStdDev s v

theorem addS_cnt (s : Statistic) (v : FP) :
    (addS s v)._cnt = s._cnt + 1 := by
  unfold addS add
  rw [updateSsq_cnt]
  show (updateMinMax s v)._cnt + 1 = s._cnt + 1
  rw [updateMinMax_cnt]

theorem addS_sum (s : Statistic) (v : FP) :
    (addS s v)._sum = fpAdd s._sum v := by
  unfold addS add
  rw [updateSsq_sum]
  show fpAdd (updateMinMax s v)._sum v = fpAdd s._sum v
  rw [updateMinMax_sum]

theorem addS_min (s : Statistic) (v : FP) :
    (addS s v)._min = (updateMinMax s v)._min := by
  unfold addS add
  rw [updateSsq_min]

theorem addS_max (s : Statistic) (v : FP) :
    (addS s v)._max = (updateMinMax s v)._max := by
  unfold addS add
  rw [updateSsq_max]

theorem add_ret (s : Statistic) (v : FP) :
    (add s v).2 = fpSub (fpAdd s._sum v) s._sum := by
  unfold add
  show fpSub (updateSsq _ v)._sum s._sum = _
  rw [updateSsq_sum]
  show fpSub (fpAdd (updateMinMax s v)._sum v) s._sum = _
  rw [updateMinMax_sum]

theorem add_fst (s : Statistic) (v : FP) : (add s v).1 = addS s v := rfl

theorem addList_nil (s : Statistic) : addList s [] = s := rfl

theorem addList_cons (s : Statistic) (v : FP) (l : List FP) :
    addList s (v :: l) = addList (addS s v) l := rfl

theorem addList_useStdDev (l : List FP) :
    ∀ s : Statistic, (addList s l)._useStdDev = s._useStdDev := by
  induction l with
  | nil => intro s; rfl
  | cons v t ih =>
    intro s
    rw [addList_cons, ih, addS_useStdDev]

theorem addList_cnt (l : List FP) :
    ∀ s : Statistic, (addList s l)._cnt = s._cnt + l.length := by
  induction l with
  | nil => intro s; rfl
  | cons v t ih =>
    intro s
    rw [addList_cons, ih, addS_cnt, List.length_cons]
    omega

theorem addList_sum_fin (l : List ℚ) :
    ∀ (s : Statistic) (S : ℚ), s._sum = some S →
      (addList s (l.map some))._sum = some (S + l.sum) := by
  induction l with
  | nil => intro s S hS; simpa using hS
  | cons v t ih =>
    intro s S hS
    rw [List.map_cons, addList_cons]
    rw [ih (addS s (some v)) (S + v) (by rw [addS_sum, hS]; rfl)]
    rw [List.sum_cons]
    ring_nf

theorem updateMinMax_fin (s : Statistic) (m M v : ℚ) (hc : s._cnt ≠ 0)
    (hm : s._min = some m) (hM : s._max = some M) (hmM : m ≤ M) :
    (updateMinMax s (some v))._min = some (min m v) ∧
    (updateMinMax s (some v))._max = some (max M v) := by
  obtain ⟨b, n, S0, mn, mx, ex⟩ := s
  replace hc : n ≠ 0 := hc
  replace hm : mn = some m := hm
  replace hM : mx = some M := hM
  subst hm
  subst hM
  unfold updateMinMax
  dsimp only
  rw [if_neg hc]
  by_cases h1 : v < m
  · rw [if_pos (by simp [fpLt, h1])]
    dsimp only
    rw [min_eq_right h1.le, max_eq_left (le_of_lt (lt_of_lt_of_le h1 hmM))]
    exact ⟨rfl, rfl⟩
  · rw [if_neg (by simp [fpLt, h1])]
    by_cases h2 : M < v
    · rw [if_pos (by simp [fpGt, h2])]
      dsimp only
      rw [min_eq_left (le_of_not_lt h1), max_eq_right h2.le]
      exact ⟨rfl, rfl⟩
    · rw [if_neg (by simp [fpGt, h2])]
      dsimp only
      rw [min_eq_left (le_of_not_lt h1), max_eq_left (le_of_not_lt h2)]
      exact ⟨rfl, rfl⟩

theorem addS_extra_fin (s : Statistic) (S Q v : ℚ) (hS : s._sum = some S)
    (hQ : s._extra = some Q) :
    (addS s (some v))._extra =
      if s._useStdDev = true ∧ 1 ≤ s._cnt then
        some (Q + ((s._cnt : ℚ) + 1) * ((S + v) / ((s._cnt : ℚ) + 1) - v) *
          ((S + v) / ((s._cnt : ℚ) + 1) - v) / (s._cnt : ℚ))
      else some Q := by
  obtain ⟨b, n, S0, mn, mx, ex⟩ := s
  replace hS : S0 = some S := hS
  replace hQ : ex = some Q := hQ
  subst hS
  subst hQ
  unfold addS add updateSsq ssqdifSet ssqdifGet
  dsimp only
  rw [updateMinMax_sum, updateMinMax_cnt, updateMinMax_extra, updateMinMax_useStdDev]
  dsimp only
  simp only [Nat.lt_succ_iff]
  split_ifs with h hb
  · dsimp only
    simp only [fpAdd, fpSub, fpMul, fpMulNat, fpDivNat, Nat.add_sub_cancel, Option.some.injEq]
    push_cast
    ring
  · exact absurd h.1 hb
  · rfl

theorem addList_minmax_fin (l : List ℚ) :
    ∀ (s : Statistic) (m M : ℚ), s._cnt ≠ 0 → s._min = some m → s._max = some M →
      m ≤ M →
      (addList s (l.map some))._min = some (l.foldl min m) ∧
      (addList s (l.map some))._max = some (l.foldl max M) := by
  induction l with
  | nil => exact fun s m M hc hm hM hmM => ⟨hm, hM⟩
  | cons v t ih =>
    intro s m M hc hm hM hmM
    rw [List.map_cons, addList_cons]
    have h := updateMinMax_fin s m M v hc hm hM hmM
    have h1 : (addS s (some v))._min = some (min m v) := by rw [addS_min]; exact h.1
    have h2 : (addS s (some v))._max = some (max M v) := by rw [addS_max]; exact h.2
    have hc2 : (addS s (some v))._cnt ≠ 0 := by rw [addS_cnt]; omega
    have hle : min m v ≤ max M v :=
      le_trans (min_le_left m v) (le_trans hmM (le_max_left M v))
    exact ih (addS s (some v)) (min m v) (max M v) hc2 h1 h2 hle

end Statistic

/-- Modelled from the spec: the textbook Welford recurrence on a state
(running mean, count, sum of squared differences):
`delta = value - mean_before`, `mean_after = mean_before + delta / count`,
`sumSquaredDiff += delta * (value - mean_after)`. -/
def welfordStep : ℚ × ℕ × ℚ → ℚ → ℚ × ℕ × ℚ :=
  fun p v =>
    let m := p.1
    let c := p.2.1 + 1
    let delta := v - m
    let m2 := m + delta / (c : ℚ)
    (m2, c, p.2.2 + delta * (v - m2))

/-- Modelled from the spec: the sum of squared differences that the
textbook Welford recurrence accumulates over a list of samples, starting
from the empty state. -/
def welfordSsq (l : List ℚ) : ℚ :=
  (l.foldl welfordStep (0, 0, 0)).2.2

theorem welfordStep_eq (n : ℕ) (S Q v : ℚ) (hn : n = 0 → S = 0) :
    welfordStep (S / (n : ℚ), n, Q) v =
      ((S + v) / ((n : ℚ) + 1), n + 1,
        if 1 ≤ n then
          Q + ((n : ℚ) + 1) * ((S + v) / ((n : ℚ) + 1) - v) *
            ((S + v) / ((n : ℚ) + 1) - v) / (n : ℚ)
        else Q) := by
  unfold welfordStep
  dsimp only
  rcases Nat.eq_zero_or_pos n with h0 | hpos
  · subst h0
    have hS : S = 0 := hn rfl
    subst hS
    rw [if_neg (by omega)]
    norm_num
  · rw [if_pos (show 1 ≤ n by omega)]
    have hn0 : (n : ℚ) ≠ 0 := Nat.cast_ne_zero.2 (by omega)
    have hn1 : (n : ℚ) + 1 ≠ 0 := by positivity
    simp only [Prod.mk.injEq]
    refine ⟨?_, trivial, ?_⟩
    · field_simp
      ring
    · field_simp
      ring

namespace Statistic

theorem addList_extra_welford (l : List ℚ) :
    ∀ (s : Statistic) (S Q : ℚ), s._useStdDev = true → s._sum = some S →
      s._extra = some Q → (s._cnt = 0 → S = 0) →
      (addList s (l.map some))._extra =
        some ((l.foldl welfordStep (S / (s._cnt : ℚ), s._cnt, Q)).2.2) := by
  induction l with
  | nil => intro s S Q hb hS hQ hn; simpa using hQ
  | cons v t ih =>
    intro s S Q hb hS hQ hn
    rw [List.map_cons, addList_cons, List.foldl_cons, welfordStep_eq s._cnt S Q v hn]
    have hQ2 := addS_extra_fin s S Q v hS hQ
    rw [hb] at hQ2
    simp only [true_and] at hQ2
    have hb2 : (addS s (some v))._useStdDev = true := by rw [addS_useStdDev]; exact hb
    have hS2 : (addS s (some v))._sum = some (S + v) := by rw [addS_sum, hS]; rfl
    have hn2 : ((addS s (some v))._cnt = 0 → S + v = 0) := by rw [addS_cnt]; omega
    have hrec := ih (addS s (some v)) (S + v)
      (if 1 ≤ s._cnt then
        Q + ((s._cnt : ℚ) + 1) * ((S + v) / ((s._cnt : ℚ) + 1) - v) *
          ((S + v) / ((s._cnt : ℚ) + 1) - v) / (s._cnt : ℚ)
       else Q) hb2 hS2 (by rw [hQ2]; split_ifs <;> rfl) hn2
    rw [hrec, addS_cnt]
    push_cast
    rfl

end Statistic

/-- The running minimum of a list of rationals below a start value, as the
accumulator's `_min` evolves. -/
theorem foldl_min_le_start (t : List ℚ) : ∀ m : ℚ, t.foldl min m ≤ m := by
  induction t with
  | nil => intro m; exact le_refl m
  | cons a t ih =>
    intro m
    exact le_trans (ih (min m a)) (min_le_left m a)

theorem foldl_min_le_mem (t : List ℚ) :
    ∀ (m v : ℚ), v ∈ t → t.foldl min m ≤ v := by
  induction t with
  | nil => intro m v hv; exact absurd hv (List.not_mem_nil v)
  | cons a t ih =>
    intro m v hv
    rcases List.mem_cons.1 hv with h | h
    · subst h
      exact le_trans (foldl_min_le_start t (min m v)) (min_le_right m v)
    · exact ih (min m a) v h

theorem foldl_min_attained (t : List ℚ) :
    ∀ m : ℚ, t.foldl min m = m ∨ t.foldl min m ∈ t := by
  induction t with
  | nil => intro m; exact Or.inl rfl
  | cons a t ih =>
    intro m
    rcases ih (min m a) with h | h
    · rcases min_choice m a with hm | hm
      · exact Or.inl (by rw [List.foldl_cons, h, hm])
      · exact Or.inr (by rw [List.foldl_cons, h, hm]; exact List.mem_cons_self a t)
    · exact Or.inr (List.mem_cons_of_mem a h)

theorem start_le_foldl_max (t : List ℚ) : ∀ M : ℚ, M ≤ t.foldl max M := by
  induction t with
  | nil => intro M; exact le_refl M
  | cons a t ih =>
    intro M
    exact le_trans (le_max_left M a) (ih (max M a))

theorem mem_le_foldl_max (t : List ℚ) :
    ∀ (M v : ℚ), v ∈ t → v ≤ t.foldl max M := by
  induction t with
  | nil => intro M v hv; exact absurd hv (List.not_mem_nil v)
  | cons a t ih =>
    intro M v hv
    rcases List.mem_cons.1 hv with h | h
    · subst h
      exact le_trans (le_max_right M v) (start_le_foldl_max t (max M v))
    · exact ih (max M a) v h

theorem foldl_max_attained (t : List ℚ) :
    ∀ M : ℚ, t.foldl max M = M ∨ t.foldl max M ∈ t := by
  induction t with
  | nil => intro M; exact Or.inl rfl
  | cons a t ih =>
    intro M
    rcases ih (max M a) with h | h
    · rcases max_choice M a with hm | hm
      · exact Or.inl (by rw [List.foldl_cons, h, hm])
      · exact Or.inr (by rw [List.foldl_cons, h, hm]; exact List.mem_cons_self a t)
    · exact Or.inr (List.mem_cons_of_mem a h)

namespace Statistic

theorem addList_init_minmax (b : Bool) (h : ℚ) (t : List ℚ) :
    (addList (init b) ((h :: t).map some))._min = some (t.foldl min h) ∧
    (addList (init b) ((h :: t).map some))._max = some (t.foldl max h) := by
  rw [List.map_cons, addList_cons]
  refine addList_minmax_fin t (addS (init b) (some h)) h h ?_ ?_ ?_ (le_refl h)
  · rw [addS_cnt]
    simp [init]
  · rw [addS_min]
    simp [updateMinMax, init]
  · rw [addS_max]
    simp [updateMinMax, init]

end Statistic

open Statistic in
/-- The state reached in the concrete scenario of claim C1: a fresh
accumulator with variance tracking enabled, after adding the samples
2, 4, 4, 4, 5, 5, 7, 9 in order. -/
def demoC1 : Statistic :=
  Statistic.addList (Statistic.init true)
    [some 2, some 4, some 4, some 4, some 5, some 5, some 7, some 9]

theorem demoC1_eq : demoC1 = ⟨true, 8, some 40, some 2, some 9, some 32⟩ := by
  norm_num [demoC1, Statistic.addList, List.foldl, Statistic.addS, Statistic.add,
    Statistic.updateMinMax, Statistic.updateSsq, Statistic.ssqdifGet, Statistic.ssqdifSet,
    fpAdd, fpSub, fpMul, fpMulNat, fpDivNat, fpLt, fpGt, Statistic.init]

/-- Claim C1: after adding the samples 2.0, 4.0, 4.0, 4.0, 5.0, 5.0, 7.0,
9.0 in that order to a fresh accumulator with variance tracking enabled,
count() returns 8, sum() returns 40, average() returns 5, minimum()
returns 2, maximum() returns 9, pop_stdev() returns 2, and
unbiased_stdev() returns a value within 0.001 of 2.138. -/
theorem C1_concrete_scenario :
    Statistic.count demoC1 = 8 ∧ Statistic.sum demoC1 = some 40 ∧
    Statistic.average demoC1 = some 5 ∧ Statistic.minimum demoC1 = some 2 ∧
    Statistic.maximum demoC1 = some 9 ∧ Statistic.pop_stdev demoC1 = some 2 ∧
    ∃ r : ℝ, Statistic.unbiased_stdev demoC1 = some r ∧ |r - 2138 / 1000| < 1 / 1000 := by
  rw [demoC1_eq]
  refine ⟨rfl, rfl, ?_, rfl, rfl, ?_, ?_⟩
  · norm_num [Statistic.average, fpDivNat]
  · have hp : Statistic.pop_stdev ⟨true, 8, some 40, some 2, some 9, some 32⟩ =
        Statistic.fpSqrt (some (4 : ℚ)) := by
      norm_num [Statistic.pop_stdev, Statistic.ssqdifGet, fpDivNat]
    rw [hp]
    simp only [Statistic.fpSqrt]
    rw [if_neg (by norm_num)]
    rw [show ((4 : ℚ) : ℝ) = 2 ^ 2 by norm_num, Real.sqrt_sq (by norm_num : (0:ℝ) ≤ 2)]
  · refine ⟨Real.sqrt ((32 : ℝ) / 7), ?_, ?_⟩
    · have hu : Statistic.unbiased_stdev ⟨true, 8, some 40, some 2, some 9, some 32⟩ =
          Statistic.fpSqrt (some (32 / 7 : ℚ)) := by
        norm_num [Statistic.unbiased_stdev, Statistic.ssqdifGet, fpDivNat]
      rw [hu]
      simp only [Statistic.fpSqrt]
      rw [if_neg (by norm_num)]
      norm_num
    · have h1 : (2138 / 1000 : ℝ) ≤ Real.sqrt ((32 : ℝ) / 7) :=
        Real.le_sqrt_of_sq_le (by norm_num)
      have h2 : Real.sqrt ((32 : ℝ) / 7) < 2139 / 1000 :=
        (Real.sqrt_lt' (by norm_num)).2 (by norm_num)
      rw [abs_sub_lt_iff]
      constructor <;> linarith

/-- Claim C3: in every reachable state with count() = 0, the accessors
sum(), minimum(), maximum() return zero (not NaN), and average() and
variance() return NaN. -/
theorem C3_zero_count_state (s : Statistic) (hs : Reachable s)
    (h0 : Statistic.count s = 0) :
    Statistic.sum s = some 0 ∧ Statistic.minimum s = some 0 ∧
    Statistic.maximum s = some 0 ∧ Statistic.average s = none ∧
    Statistic.variance s = none := by
  revert h0
  induction hs with
  | init b =>
    intro h0
    refine ⟨rfl, rfl, rfl, rfl, ?_⟩
    cases b <;> rfl
  | add v hs ih =>
    intro h0
    rw [Statistic.count, Statistic.addS_cnt] at h0
    omega
  | clear hs ih =>
    intro h0
    refine ⟨rfl, rfl, rfl, rfl, ?_⟩
    rename_i s2
    show Statistic.variance (Statistic.clear s2) = none
    unfold Statistic.variance
    split_ifs with h1 h2
    · rfl
    · rfl
    · exact absurd rfl h2

theorem C3_zero_count_state_witness :
    Statistic.sum (Statistic.init true) = some 0 ∧
    Statistic.minimum (Statistic.init true) = some 0 ∧
    Statistic.maximum (Statistic.init true) = some 0 ∧
    Statistic.average (Statistic.init true) = none ∧
    Statistic.variance (Statistic.init true) = none :=
  C3_zero_count_state (Statistic.init true) (Reachable.init true) rfl

/-- Claim C5 fails as stated: from the reachable state whose running sum is
already NaN (after adding NaN), add(1.0) returns NaN, not the argument
1.0. -/
theorem C5_counterexample :
    (Statistic.add (Statistic.addS (Statistic.init true) none) (some 1)).2 ≠ some 1 := by
  have h : (Statistic.add (Statistic.addS (Statistic.init true) none) (some 1)).2 = none := by
    norm_num [Statistic.addS, Statistic.add, Statistic.updateMinMax, Statistic.updateSsq,
      Statistic.ssqdifGet, Statistic.ssqdifSet, fpAdd, fpSub, fpMul, fpMulNat, fpDivNat,
      fpLt, fpGt, Statistic.init]
  rw [h]
  exact fun hc => Option.noConfusion hc

/-- Claim C5, amended: for every accumulator state whose sum field is not
NaN and every input value, add(value) returns the new sum minus the old
sum, and that difference equals the argument value.  (When the stored sum
is already NaN, the return value is NaN instead.) -/
theorem C5_add_returns_value (s : Statistic) (v : FP) (h : s._sum ≠ none) :
    (Statistic.add s v).2 =
      fpSub (Statistic.sum (Statistic.addS s v)) (Statistic.sum s) ∧
    (Statistic.add s v).2 = v := by
  refine ⟨rfl, ?_⟩
  obtain ⟨S, hS⟩ : ∃ S, s._sum = some S := by
    cases hsum : s._sum
    · exact absurd hsum h
    · exact ⟨_, rfl⟩
  rw [Statistic.add_ret, hS]
  cases v with
  | none => rfl
  | some x =>
    show some (S + x - S) = some x
    norm_num

theorem C5_add_returns_value_witness :
    (Statistic.add (Statistic.init true) (some 3)).2 =
      fpSub (Statistic.sum (Statistic.addS (Statistic.init true) (some 3)))
        (Statistic.sum (Statistic.init true)) ∧
    (Statistic.add (Statistic.init true) (some 3)).2 = some 3 :=
  C5_add_returns_value (Statistic.init true) (some 3) (by simp [Statistic.init])

/-- Claim C6: clear() followed by any of the eight queries gives the same
result as the same query on a freshly default-constructed accumulator (of
the same instantiation, i.e. with the same variance-tracking flag). -/
theorem C6_clear_equals_fresh (s : Statistic) :
    Statistic.count (Statistic.clear s) = Statistic.count (Statistic.init s._useStdDev) ∧
    Statistic.sum (Statistic.clear s) = Statistic.sum (Statistic.init s._useStdDev) ∧
    Statistic.minimum (Statistic.clear s) = Statistic.minimum (Statistic.init s._useStdDev) ∧
    Statistic.maximum (Statistic.clear s) = Statistic.maximum (Statistic.init s._useStdDev) ∧
    Statistic.average (Statistic.clear s) = Statistic.average (Statistic.init s._useStdDev) ∧
    Statistic.variance (Statistic.clear s) = Statistic.variance (Statistic.init s._useStdDev) ∧
    Statistic.pop_stdev (Statistic.clear s) = Statistic.pop_stdev (Statistic.init s._useStdDev) ∧
    Statistic.unbiased_stdev (Statistic.clear s) =
      Statistic.unbiased_stdev (Statistic.init s._useStdDev) := by
  have hv : ∀ t : Statistic, t._cnt = 0 → Statistic.variance t = none := by
    intro t ht
    unfold Statistic.variance
    split_ifs with ha
    · rfl
    · rfl
  have hps : ∀ t : Statistic, t._cnt = 0 → Statistic.pop_stdev t = none := by
    intro t ht
    unfold Statistic.pop_stdev
    split_ifs with ha
    · rfl
    · rfl
  have hus : ∀ t : Statistic, t._cnt = 0 → Statistic.unbiased_stdev t = none := by
    intro t ht
    unfold Statistic.unbiased_stdev
    split_ifs with ha hb
    · rfl
    · rfl
    · exact absurd (by omega : t._cnt < 2) hb
  refine ⟨rfl, rfl, rfl, rfl, rfl, ?_, ?_, ?_⟩
  · rw [hv _ rfl, hv _ rfl]
  · rw [hps _ rfl, hps _ rfl]
  · rw [hus _ rfl, hus _ rfl]

namespace Statistic

theorem fpLt_none_left (x : FP) : fpLt none x = false := by
  cases x <;> rfl

theorem fpLt_none_right (x : FP) : fpLt x none = false := by
  cases x <;> rfl

theorem fpGt_none_left (x : FP) : fpGt none x = false := by
  cases x <;> rfl

theorem fpGt_none_right (x : FP) : fpGt x none = false := by
  cases x <;> rfl

theorem updateMinMax_frozen (s : Statistic) (v : FP) (hc : s._cnt ≠ 0)
    (h1 : fpLt v s._min = false) (h2 : fpGt v s._max = false) :
    updateMinMax s v = s := by
  unfold updateMinMax
  rw [if_neg hc, h1, h2]
  simp

theorem addList_nan_minmax (l : List FP) :
    ∀ s : Statistic, 1 ≤ s._cnt → s._min = none → s._max = none →
      (addList s l)._min = none ∧ (addList s l)._max = none := by
  induction l with
  | nil => exact fun s hc hm hM => ⟨hm, hM⟩
  | cons v t ih =>
    intro s hc hm hM
    rw [addList_cons]
    have hu : updateMinMax s v = s :=
      updateMinMax_frozen s v (by omega)
        (by rw [hm]; exact fpLt_none_right v) (by rw [hM]; exact fpGt_none_right v)
    refine ih (addS s v) ?_ ?_ ?_
    · rw [addS_cnt]; omega
    · rw [addS_min, hu]; exact hm
    · rw [addS_max, hu]; exact hM

end Statistic

/-- Claim C10: adding NaN when count >= 1 leaves min and max unchanged
(both strict comparisons against NaN are false); a NaN added as the very
first sample sets both min and max to NaN; and once min and max are NaN
with count >= 1, they remain NaN after any further sequence of adds. -/
theorem C10_nan_minmax_behavior (s : Statistic) (l : List FP) :
    (1 ≤ s._cnt →
      Statistic.minimum (Statistic.addS s none) = Statistic.minimum s ∧
      Statistic.maximum (Statistic.addS s none) = Statistic.maximum s) ∧
    (s._cnt = 0 →
      Statistic.minimum (Statistic.addS s none) = none ∧
      Statistic.maximum (Statistic.addS s none) = none) ∧
    (1 ≤ s._cnt → Statistic.minimum s = none → Statistic.maximum s = none →
      Statistic.minimum (Statistic.addList s l) = none ∧
      Statistic.maximum (Statistic.addList s l) = none) := by
  refine ⟨?_, ?_, ?_⟩
  · intro hc
    have hu : Statistic.updateMinMax s none = s :=
      Statistic.updateMinMax_frozen s none (by omega)
        (Statistic.fpLt_none_left s._min) (Statistic.fpGt_none_left s._max)
    constructor
    · show (Statistic.addS s none)._min = s._min
      rw [Statistic.addS_min, hu]
    · show (Statistic.addS s none)._max = s._max
      rw [Statistic.addS_max, hu]
  · intro hc
    constructor
    · show (Statistic.addS s none)._min = none
      rw [Statistic.addS_min]
      unfold Statistic.updateMinMax
      rw [if_pos hc]
    · show (Statistic.addS s none)._max = none
      rw [Statistic.addS_max]
      unfold Statistic.updateMinMax
      rw [if_pos hc]
  · exact Statistic.addList_nan_minmax l s

theorem C10_nan_minmax_behavior_witness :
    Statistic.minimum (Statistic.addS (Statistic.addS (Statistic.init true) (some 1)) none) =
      Statistic.minimum (Statistic.addS (Statistic.init true) (some 1)) ∧
    Statistic.minimum (Statistic.addS (Statistic.init true) none) = none ∧
    Statistic.maximum (Statistic.addS (Statistic.init true) none) = none ∧
    Statistic.minimum (Statistic.addList (Statistic.addS (Statistic.init true) none) [some 5]) = none := by
  have h1 := C10_nan_minmax_behavior (Statistic.addS (Statistic.init true) (some 1)) [some 5]
  have h2 := C10_nan_minmax_behavior (Statistic.addS (Statistic.init true) none) [some 5]
  have hc1 : 1 ≤ (Statistic.addS (Statistic.init true) (some 1))._cnt := by
    rw [Statistic.addS_cnt]; omega
  have hc2 : 1 ≤ (Statistic.addS (Statistic.init true) none)._cnt := by
    rw [Statistic.addS_cnt]; omega
  have hc0 : (Statistic.init true)._cnt = 0 := rfl
  have hmm := (C10_nan_minmax_behavior (Statistic.init true) []).2.1 hc0
  refine ⟨(h1.1 hc1).1, hmm.1, hmm.2, (h2.2.2 hc2 hmm.1 hmm.2).1⟩

namespace Statistic

theorem updateMinMax_agree (s t : Statistic) (v : FP) (h1 : s._cnt = t._cnt)
    (h3 : s._min = t._min) (h4 : s._max = t._max) :
    (updateMinMax s v)._min = (updateMinMax t v)._min ∧
    (updateMinMax s v)._max = (updateMinMax t v)._max := by
  unfold updateMinMax
  rw [h1, h3, h4]
  split_ifs <;> constructor <;> simp [h3, h4]

theorem addList_agree (l : List FP) :
    ∀ s t : Statistic, s._cnt = t._cnt → s._sum = t._sum → s._min = t._min →
      s._max = t._max →
      (addList s l)._cnt = (addList t l)._cnt ∧
      (addList s l)._sum = (addList t l)._sum ∧
      (addList s l)._min = (addList t l)._min ∧
      (addList s l)._max = (addList t l)._max := by
  induction l with
  | nil => exact fun s t h1 h2 h3 h4 => ⟨h1, h2, h3, h4⟩
  | cons v u ih =>
    intro s t h1 h2 h3 h4
    rw [addList_cons, addList_cons]
    have hmm := updateMinMax_agree s t v h1 h3 h4
    refine ih (addS s v) (addS t v) ?_ ?_ ?_ ?_
    · rw [addS_cnt, addS_cnt, h1]
    · rw [addS_sum, addS_sum, h2]
    · rw [addS_min, addS_min]; exact hmm.1
    · rw [addS_max, addS_max]; exact hmm.2

end Statistic

/-- Claim C9: with variance tracking disabled, variance(), pop_stdev() and
unbiased_stdev() return NaN after any sequence of adds, while count(),
sum(), minimum(), maximum() and average() agree exactly with the
variance-enabled instantiation after the same sequence of add calls. -/
theorem C9_disabled_configuration (l : List FP) :
    Statistic.variance (Statistic.addList (Statistic.init false) l) = none ∧
    Statistic.pop_stdev (Statistic.addList (Statistic.init false) l) = none ∧
    Statistic.unbiased_stdev (Statistic.addList (Statistic.init false) l) = none ∧
    Statistic.count (Statistic.addList (Statistic.init false) l) =
      Statistic.count (Statistic.addList (Statistic.init true) l) ∧
    Statistic.sum (Statistic.addList (Statistic.init false) l) =
      Statistic.sum (Statistic.addList (Statistic.init true) l) ∧
    Statistic.minimum (Statistic.addList (Statistic.init false) l) =
      Statistic.minimum (Statistic.addList (Statistic.init true) l) ∧
    Statistic.maximum (Statistic.addList (Statistic.init false) l) =
      Statistic.maximum (Statistic.addList (Statistic.init true) l) ∧
    Statistic.average (Statistic.addList (Statistic.init false) l) =
      Statistic.average (Statistic.addList (Statistic.init true) l) := by
  have hb : (Statistic.addList (Statistic.init false) l)._useStdDev = false := by
    rw [Statistic.addList_useStdDev]; rfl
  have hag := Statistic.addList_agree l (Statistic.init false) (Statistic.init true)
    rfl rfl rfl rfl
  refine ⟨?_, ?_, ?_, hag.1, hag.2.1, hag.2.2.1, hag.2.2.2, ?_⟩
  · unfold Statistic.variance
    rw [if_pos hb]
  · unfold Statistic.pop_stdev
    rw [if_pos hb]
  · unfold Statistic.unbiased_stdev
    rw [if_pos hb]
  · unfold Statistic.average
    rw [hag.1, hag.2.1]

/-- Claim C2: over every sequence of (finite) samples, the sum of squared
differences maintained by add's post-increment recurrence equals, in exact
arithmetic, the value maintained by the textbook Welford recurrence. -/
theorem C2_welford_equivalence (l : List ℚ) :
    Statistic.ssqdifGet (Statistic.addList (Statistic.init true) (l.map some)) =
      some (welfordSsq l) := by
  have h := Statistic.addList_extra_welford l (Statistic.init true) 0 0 rfl rfl rfl
    (fun _ => rfl)
  have hb : (Statistic.addList (Statistic.init true) (l.map some))._useStdDev = true := by
    rw [Statistic.addList_useStdDev]; rfl
  rw [Statistic.ssqdifGet, if_pos hb, h]
  unfold welfordSsq
  norm_num [Statistic.init]

/-- The running minimum over a nonempty list is a member of it. -/
theorem foldl_min_mem_cons (h : ℚ) (t : List ℚ) : t.foldl min h ∈ h :: t := by
  rcases foldl_min_attained t h with he | he
  · rw [he]; exact List.mem_cons_self h t
  · exact List.mem_cons_of_mem h he

theorem foldl_max_mem_cons (h : ℚ) (t : List ℚ) : t.foldl max h ∈ h :: t := by
  rcases foldl_max_attained t h with he | he
  · rw [he]; exact List.mem_cons_self h t
  · exact List.mem_cons_of_mem h he

theorem foldl_min_le_of_mem_cons (h : ℚ) (t : List ℚ) (v : ℚ) (hv : v ∈ h :: t) :
    t.foldl min h ≤ v := by
  rcases List.mem_cons.1 hv with rfl | he
  · exact foldl_min_le_start t v
  · exact foldl_min_le_mem t h v he

theorem le_foldl_max_of_mem_cons (h : ℚ) (t : List ℚ) (v : ℚ) (hv : v ∈ h :: t) :
    v ≤ t.foldl max h := by
  rcases List.mem_cons.1 hv with rfl | he
  · exact start_le_foldl_max t v
  · exact mem_le_foldl_max t h v he

theorem foldl_min_perm (h1 : ℚ) (t1 : List ℚ) (h2 : ℚ) (t2 : List ℚ)
    (hp : List.Perm (h1 :: t1) (h2 :: t2)) :
    t1.foldl min h1 = t2.foldl min h2 := by
  apply le_antisymm
  · exact foldl_min_le_of_mem_cons h1 t1 _ (hp.mem_iff.2 (foldl_min_mem_cons h2 t2))
  · exact foldl_min_le_of_mem_cons h2 t2 _ (hp.mem_iff.1 (foldl_min_mem_cons h1 t1))

theorem foldl_max_perm (h1 : ℚ) (t1 : List ℚ) (h2 : ℚ) (t2 : List ℚ)
    (hp : List.Perm (h1 :: t1) (h2 :: t2)) :
    t1.foldl max h1 = t2.foldl max h2 := by
  apply le_antisymm
  · exact le_foldl_max_of_mem_cons h2 t2 _ (hp.mem_iff.1 (foldl_max_mem_cons h1 t1))
  · exact le_foldl_max_of_mem_cons h1 t1 _ (hp.mem_iff.2 (foldl_max_mem_cons h2 t2))

/-- Claim C7 fails as stated: adding NaN as the (only, hence first) sample
gives a reachable state with count = 1 whose min and max are NaN, and the
IEEE comparison min <= max is then false. -/
theorem C7_counterexample :
    Reachable (Statistic.addS (Statistic.init true) none) ∧
    1 ≤ (Statistic.addS (Statistic.init true) none)._cnt ∧
    fpLe (Statistic.minimum (Statistic.addS (Statistic.init true) none))
      (Statistic.maximum (Statistic.addS (Statistic.init true) none)) = false := by
  refine ⟨Reachable.add none (Reachable.init true), ?_, ?_⟩
  · rw [Statistic.addS_cnt]; omega
  · have hs : Statistic.addS (Statistic.init true) none =
        ⟨true, 1, none, none, none, some 0⟩ := by
      norm_num [Statistic.addS, Statistic.add, Statistic.updateMinMax, Statistic.updateSsq,
        Statistic.ssqdifGet, Statistic.ssqdifSet, fpAdd, fpSub, fpMul, fpMulNat, fpDivNat,
        fpLt, fpGt, Statistic.init]
    rw [hs]
    rfl

/-- Claim C7, amended: after adding a nonempty sequence of finite (non-NaN)
samples to a fresh accumulator, min <= max holds, min and max are each
exactly equal to one of the added samples, and every added sample v
satisfies minimum() <= v <= maximum().  (With NaN samples the comparisons
are false, per claim C10.) -/
theorem C7_minmax_attained (b : Bool) (l : List ℚ) (hl : l ≠ []) :
    fpLe (Statistic.minimum (Statistic.addList (Statistic.init b) (l.map some)))
      (Statistic.maximum (Statistic.addList (Statistic.init b) (l.map some))) = true ∧
    (∃ a, a ∈ l ∧
      Statistic.minimum (Statistic.addList (Statistic.init b) (l.map some)) = some a) ∧
    (∃ a, a ∈ l ∧
      Statistic.maximum (Statistic.addList (Statistic.init b) (l.map some)) = some a) ∧
    (∀ v, v ∈ l →
      fpLe (Statistic.minimum (Statistic.addList (Statistic.init b) (l.map some)))
        (some v) = true ∧
      fpLe (some v)
        (Statistic.maximum (Statistic.addList (Statistic.init b) (l.map some))) = true) := by
  obtain ⟨h, t, rfl⟩ : ∃ h t, l = h :: t := by
    cases l with
    | nil => exact absurd rfl hl
    | cons h t => exact ⟨h, t, rfl⟩
  obtain ⟨hmin, hmax⟩ := Statistic.addList_init_minmax b h t
  rw [Statistic.minimum, Statistic.maximum, hmin, hmax]
  refine ⟨?_, ⟨t.foldl min h, foldl_min_mem_cons h t, rfl⟩,
    ⟨t.foldl max h, foldl_max_mem_cons h t, rfl⟩, ?_⟩
  · simp only [fpLe, decide_eq_true_eq]
    exact le_trans (foldl_min_le_start t h) (start_le_foldl_max t h)
  · intro v hv
    constructor
    · simp only [fpLe, decide_eq_true_eq]
      exact foldl_min_le_of_mem_cons h t v hv
    · simp only [fpLe, decide_eq_true_eq]
      exact le_foldl_max_of_mem_cons h t v hv

theorem C7_minmax_attained_witness :
    ([2, 1] : List ℚ) ≠ [] ∧
    (fpLe (Statistic.minimum (Statistic.addList (Statistic.init true)
        (([2, 1] : List ℚ).map some)))
      (Statistic.maximum (Statistic.addList (Statistic.init true)
        (([2, 1] : List ℚ).map some))) = true ∧
    (∃ a, a ∈ ([2, 1] : List ℚ) ∧
      Statistic.minimum (Statistic.addList (Statistic.init true)
        (([2, 1] : List ℚ).map some)) = some a) ∧
    (∃ a, a ∈ ([2, 1] : List ℚ) ∧
      Statistic.maximum (Statistic.addList (Statistic.init true)
        (([2, 1] : List ℚ).map some)) = some a) ∧
    (∀ v, v ∈ ([2, 1] : List ℚ) →
      fpLe (Statistic.minimum (Statistic.addList (Statistic.init true)
        (([2, 1] : List ℚ).map some))) (some v) = true ∧
      fpLe (some v) (Statistic.maximum (Statistic.addList (Statistic.init true)
        (([2, 1] : List ℚ).map some))) = true)) :=
  ⟨by simp, C7_minmax_attained true [2, 1] (by simp)⟩

/-- Claim C8 fails as stated: the lists [NaN, 1.0] and [1.0, NaN] are
permutations of each other, yet they produce different minimum() values
(NaN in the first order, 1.0 in the second). -/
theorem C8_counterexample :
    List.Perm [(none : FP), some 1] [some 1, none] ∧
    Statistic.minimum (Statistic.addList (Statistic.init true) [none, some 1]) = none ∧
    Statistic.minimum (Statistic.addList (Statistic.init true) [some 1, none]) = some 1 := by
  refine ⟨List.Perm.swap (some 1) none [], ?_, ?_⟩ <;>
    norm_num [Statistic.minimum, Statistic.addList, List.foldl, Statistic.addS, Statistic.add,
      Statistic.updateMinMax, Statistic.updateSsq, Statistic.ssqdifGet, Statistic.ssqdifSet,
      fpAdd, fpSub, fpMul, fpMulNat, fpDivNat, fpLt, fpGt, Statistic.init]

/-- Claim C8, amended: for every multiset of finite (non-NaN) samples and
every two permutations of it, adding each permutation to a fresh
accumulator yields identical count(), sum(), minimum() and maximum()
values (sum exactly, in the exact-arithmetic embedding).  (With NaN
samples, minimum()/maximum() depend on the order, per claim C10.) -/
theorem C8_permutation_invariance (b : Bool) (l1 l2 : List ℚ)
    (hp : List.Perm l1 l2) :
    Statistic.count (Statistic.addList (Statistic.init b) (l1.map some)) =
      Statistic.count (Statistic.addList (Statistic.init b) (l2.map some)) ∧
    Statistic.sum (Statistic.addList (Statistic.init b) (l1.map some)) =
      Statistic.sum (Statistic.addList (Statistic.init b) (l2.map some)) ∧
    Statistic.minimum (Statistic.addList (Statistic.init b) (l1.map some)) =
      Statistic.minimum (Statistic.addList (Statistic.init b) (l2.map some)) ∧
    Statistic.maximum (Statistic.addList (Statistic.init b) (l1.map some)) =
      Statistic.maximum (Statistic.addList (Statistic.init b) (l2.map some)) := by
  refine ⟨?_, ?_, ?_, ?_⟩
  · show (Statistic.addList _ _)._cnt = (Statistic.addList _ _)._cnt
    rw [Statistic.addList_cnt, Statistic.addList_cnt, List.length_map, List.length_map,
      hp.length_eq]
  · show (Statistic.addList _ _)._sum = (Statistic.addList _ _)._sum
    rw [Statistic.addList_sum_fin l1 (Statistic.init b) 0 rfl,
      Statistic.addList_sum_fin l2 (Statistic.init b) 0 rfl, hp.sum_eq]
  · cases l1 with
    | nil =>
      rw [← List.Perm.nil_eq hp]
    | cons h1 t1 =>
      cases l2 with
      | nil => exact absurd (List.Perm.eq_nil hp) (List.cons_ne_nil h1 t1)
      | cons h2 t2 =>
        show (Statistic.addList _ _)._min = (Statistic.addList _ _)._min
        rw [(Statistic.addList_init_minmax b h1 t1).1,
          (Statistic.addList_init_minmax b h2 t2).1, foldl_min_perm h1 t1 h2 t2 hp]
  · cases l1 with
    | nil =>
      rw [← List.Perm.nil_eq hp]
    | cons h1 t1 =>
      cases l2 with
      | nil => exact absurd (List.Perm.eq_nil hp) (List.cons_ne_nil h1 t1)
      | cons h2 t2 =>
        show (Statistic.addList _ _)._max = (Statistic.addList _ _)._max
        rw [(Statistic.addList_init_minmax b h1 t1).2,
          (Statistic.addList_init_minmax b h2 t2).2, foldl_max_perm h1 t1 h2 t2 hp]

theorem C8_permutation_invariance_witness :
    List.Perm ([1, 2] : List ℚ) [2, 1] ∧
    (Statistic.count (Statistic.addList (Statistic.init true) (([1, 2] : List ℚ).map some)) =
      Statistic.count (Statistic.addList (Statistic.init true) (([2, 1] : List ℚ).map some)) ∧
    Statistic.sum (Statistic.addList (Statistic.init true) (([1, 2] : List ℚ).map some)) =
      Statistic.sum (Statistic.addList (Statistic.init true) (([2, 1] : List ℚ).map some)) ∧
    Statistic.minimum (Statistic.addList (Statistic.init true) (([1, 2] : List ℚ).map some)) =
      Statistic.minimum (Statistic.addList (Statistic.init true) (([2, 1] : List ℚ).map some)) ∧
    Statistic.maximum (Statistic.addList (Statistic.init true) (([1, 2] : List ℚ).map some)) =
      Statistic.maximum (Statistic.addList (Statistic.init true) (([2, 1] : List ℚ).map some))) :=
  ⟨List.Perm.swap 2 1 [], C8_permutation_invariance true [1, 2] [2, 1] (List.Perm.swap 2 1 [])⟩

/-- Every state reachable with only finite samples has a finite sum and a
finite, nonnegative sum of squared differences. -/
theorem reachableFin_inv (s : Statistic) (hs : ReachableFin s) :
    (∃ S, s._sum = some S) ∧ ∃ Q, 0 ≤ Q ∧ s._extra = some Q := by
  induction hs with
  | init b => exact ⟨⟨0, rfl⟩, 0, le_refl 0, rfl⟩
  | add q hs ih =>
    rename_i s2
    obtain ⟨⟨S, hS⟩, Q, hQ0, hQ⟩ := ih
    refine ⟨⟨S + q, by rw [Statistic.addS_sum, hS]; rfl⟩, ?_⟩
    rw [Statistic.addS_extra_fin s2 S Q q hS hQ]
    split_ifs with h
    · refine ⟨_, ?_, rfl⟩
      have hc : (0 : ℚ) ≤ (s2._cnt : ℚ) := Nat.cast_nonneg s2._cnt
      have hterm : 0 ≤ ((s2._cnt : ℚ) + 1) * ((S + q) / ((s2._cnt : ℚ) + 1) - q) *
          ((S + q) / ((s2._cnt : ℚ) + 1) - q) / (s2._cnt : ℚ) := by
        apply div_nonneg _ hc
        rw [mul_assoc]
        exact mul_nonneg (by positivity) (mul_self_nonneg _)
      linarith
    · exact ⟨Q, hQ0, rfl⟩
  | clear hs ih =>
    obtain ⟨⟨S, hS⟩, Q, hQ0, hQ⟩ := ih
    refine ⟨⟨0, rfl⟩, ?_⟩
    dsimp only [Statistic.clear]
    split_ifs with h
    · exact ⟨0, le_refl 0, rfl⟩
    · exact ⟨Q, hQ0, hQ⟩

/-- Claim C4 fails as stated: after adding the samples NaN then 0.0 with
variance tracking enabled, the state is reachable, the counter is 2 and
the flag is on, yet variance(), pop_stdev() and unbiased_stdev() all
return NaN (the NaN sample poisons the sum of squared differences), so
returning NaN is not equivalent to "tracking disabled or too few
samples". -/
theorem C4_counterexample :
    Reachable (Statistic.addS (Statistic.addS (Statistic.init true) none) (some 0)) ∧
    (Statistic.addS (Statistic.addS (Statistic.init true) none) (some 0))._useStdDev = true ∧
    (Statistic.addS (Statistic.addS (Statistic.init true) none) (some 0))._cnt = 2 ∧
    Statistic.variance (Statistic.addS (Statistic.addS (Statistic.init true) none) (some 0)) = none ∧
    Statistic.pop_stdev (Statistic.addS (Statistic.addS (Statistic.init true) none) (some 0)) = none ∧
    Statistic.unbiased_stdev (Statistic.addS (Statistic.addS (Statistic.init true) none) (some 0)) = none := by
  have hs : Statistic.addS (Statistic.addS (Statistic.init true) none) (some 0) =
      ⟨true, 2, none, none, none, none⟩ := by
    norm_num [Statistic.addS, Statistic.add, Statistic.updateMinMax, Statistic.updateSsq,
      Statistic.ssqdifGet, Statistic.ssqdifSet, fpAdd, fpSub, fpMul, fpMulNat, fpDivNat,
      fpLt, fpGt, Statistic.init]
  refine ⟨Reachable.add (some 0) (Reachable.add none (Reachable.init true)), ?_, ?_, ?_, ?_, ?_⟩
  · rw [hs]
  · rw [hs]
  · rw [hs]
    norm_num [Statistic.variance, Statistic.ssqdifGet, fpDivNat]
  · rw [hs]
    norm_num [Statistic.pop_stdev, Statistic.ssqdifGet, fpDivNat, Statistic.fpSqrt]
  · rw [hs]
    norm_num [Statistic.unbiased_stdev, Statistic.ssqdifGet, fpDivNat, Statistic.fpSqrt]

/-- Claim C4, amended: in every state reachable using only finite
(non-NaN) samples, variance() and pop_stdev() return NaN exactly when
variance tracking is disabled or count = 0, and unbiased_stdev() returns
NaN exactly when variance tracking is disabled or count < 2.  (A NaN
sample makes all three return NaN even when these conditions fail, per
the counterexample.) -/
theorem C4_nan_iff (s : Statistic) (hs : ReachableFin s) :
    (Statistic.variance s = none ↔ (s._useStdDev = false ∨ s._cnt = 0)) ∧
    (Statistic.pop_stdev s = none ↔ (s._useStdDev = false ∨ s._cnt = 0)) ∧
    (Statistic.unbiased_stdev s = none ↔ (s._useStdDev = false ∨ s._cnt < 2)) := by
  obtain ⟨⟨S, hS⟩, Q, hQ0, hQ⟩ := reachableFin_inv s hs
  rcases Bool.dichotomy s._useStdDev with hb | hb
  · refine ⟨?_, ?_, ?_⟩
    · unfold Statistic.variance
      rw [if_pos hb]
      simp [hb]
    · unfold Statistic.pop_stdev
      rw [if_pos hb]
      simp [hb]
    · unfold Statistic.unbiased_stdev
      rw [if_pos hb]
      simp [hb]
  · have hague : ¬ s._useStdDev = false := by
      rw [hb]
      intro hcon
      exact Bool.noConfusion hcon
    have hget : Statistic.ssqdifGet s = some Q := by
      rw [Statistic.ssqdifGet, if_pos hb, hQ]
    have hc0 : (0 : ℚ) ≤ (s._cnt : ℚ) := Nat.cast_nonneg s._cnt
    refine ⟨?_, ?_, ?_⟩
    · unfold Statistic.variance
      rw [if_neg hague]
      rcases Nat.eq_zero_or_pos s._cnt with h0 | hpos
      · rw [if_pos h0]
        simp [h0]
      · rw [if_neg (by omega), hget]
        simp only [fpDivNat]
        constructor
        · intro hcon
          exact absurd hcon (Option.some_ne_none _)
        · intro hcon
          rcases hcon with hcon | hcon
          · exact absurd hcon hague
          · omega
    · unfold Statistic.pop_stdev
      rw [if_neg hague]
      rcases Nat.eq_zero_or_pos s._cnt with h0 | hpos
      · rw [if_pos h0]
        simp [h0]
      · rw [if_neg (by omega), hget]
        simp only [fpDivNat, Statistic.fpSqrt]
        rw [if_neg (not_lt.2 (by positivity))]
        constructor
        · intro hcon
          exact absurd hcon (Option.some_ne_none _)
        · intro hcon
          rcases hcon with hcon | hcon
          · exact absurd hcon hague
          · omega
    · unfold Statistic.unbiased_stdev
      rw [if_neg hague]
      rcases Nat.lt_or_ge s._cnt 2 with h0 | hpos
      · rw [if_pos h0]
        simp [h0]
      · rw [if_neg (by omega), hget]
        simp only [fpDivNat, Statistic.fpSqrt]
        rw [if_neg (not_lt.2 (by positivity))]
        constructor
        · intro hcon
          exact absurd hcon (Option.some_ne_none _)
        · intro hcon
          rcases hcon with hcon | hcon
          · exact absurd hcon hague
          · omega

theorem C4_nan_iff_witness :
    (Statistic.variance (Statistic.init true) = none ↔
      ((Statistic.init true)._useStdDev = false ∨ (Statistic.init true)._cnt = 0)) ∧
    (Statistic.pop_stdev (Statistic.init true) = none ↔
      ((Statistic.init true)._useStdDev = false ∨ (Statistic.init true)._cnt = 0)) ∧
    (Statistic.unbiased_stdev (Statistic.init true) = none ↔
      ((Statistic.init true)._useStdDev = false ∨ (Statistic.init true)._cnt < 2)) :=
  C4_nan_iff (Statistic.init true) (ReachableFin.init true)

end stat
